import Mathlib

/-!
Verification development for the dartt-dashboard repository.

The development shallowly embeds the core data model and algorithms of the
repository (src/src/config.h, src/src/buffer_sync.h, the buffer-sync
implementation, the JSON/tree builder and the ELF/DWARF type resolver) in
Lean and proves properties of the embedded definitions.

Modelling conventions:
  * C++ machine integers (uint32_t) are modelled as Nat; wherever the source
    arithmetic can wrap or underflow on uint32_t, the embedding applies an
    explicit reduction modulo 2^32 (functions u32 and u32sub below).
  * Raw pointers (DarttField*) are modelled as Nat indices into a heap
    function (Nat -> FieldData); a vector of pointers becomes List Nat.
  * The 8-byte value union of DarttField is modelled as a list of bytes
    (List Nat); memcpy of n bytes from the union copies its first n bytes.
  * Fallible C calls are modelled with Option.
  * The float-valued UI members display_scale and display_value are omitted:
    no modelled operation reads or writes them.
-/

/-- Field type classification, from config.h enum class FieldType. -/
inductive FieldType where
  | STRUCT
  | UNION
  | ARRAY
  | FLOAT
  | DOUBLE
  | INT8
  | UINT8
  | INT16
  | UINT16
  | INT32
  | UINT32
  | INT64
  | UINT64
  | POINTER
  | ENUM
  | UNKNOWN
deriving DecidableEq, Repr

/-- Scalar data of one DarttField (config.h struct DarttField), without the
children vector.  The recursive tree type DarttField below pairs this record
with a child list; leaf-level operations (buffer_sync) act on this record
through pointer indices.  The value union is modelled as its 8 bytes. -/
structure FieldData where
  name : String
  byte_offset : Nat
  dartt_offset : Nat
  nbytes : Nat
  type : FieldType
  type_name : String
  array_size : Nat
  element_nbytes : Nat
  subscribed : Bool
  dirty : Bool
  expanded : Bool
  use_display_scale : Bool
  value : List Nat
deriving DecidableEq, Repr

/-- Default-constructed DarttField scalar data (config.h default constructor:
all counters zero, all flags false, value.u64 = 0). -/
def FieldData.default : FieldData :=
  ⟨"", 0, 0, 0, FieldType.UNKNOWN, "", 0, 0, false, false, false, false,
   List.replicate 8 0⟩

/-- MemoryRegion from buffer_sync.h; the fields vector of DarttField
pointers is a list of heap indices. -/
structure MemoryRegion where
  start_offset : Nat
  length : Nat
  fields : List Nat
deriving DecidableEq, Repr

/-- Reduction modulo 2^32, the behaviour of uint32_t arithmetic. -/
def u32 (x : Nat) : Nat := x % 4294967296

/-- uint32_t subtraction a - b (with wraparound) for a b < 2^32. -/
def u32sub (a b : Nat) : Nat := u32 (4294967296 + a - b)

/-- Align offset down to 32-bit boundary (offset & ~3u). -/
def align_down_32 (offset : Nat) : Nat := offset - offset % 4

/-- Align offset up to 32-bit boundary ((offset + 3u) & ~3u); the addition
wraps on uint32_t. -/
def align_up_32 (offset : Nat) : Nat :=
  u32 (offset + 3) - u32 (offset + 3) % 4

/-- Collect all dirty leaf fields (buffer_sync collect_dirty_fields): keep,
in order, the leaf-list entries whose field is dirty. -/
def collect_dirty_fields (σ : Nat → FieldData) (leaf_list : List Nat) : List Nat :=
  leaf_list.filter (fun i => (σ i).dirty)

/-- Collect all subscribed leaf fields (buffer_sync collect_subscribed_fields). -/
def collect_subscribed_fields (σ : Nat → FieldData) (leaf_list : List Nat) : List Nat :=
  leaf_list.filter (fun i => (σ i).subscribed)

/-- The aligned end of the byte range of field f: align_up_32 applied to the
uint32_t sum byte_offset + nbytes. -/
def fieldEnd (σ : Nat → FieldData) (f : Nat) : Nat :=
  align_up_32 (u32 ((σ f).byte_offset + (σ f).nbytes))

/-- The aligned start of the byte range of field f. -/
def fieldStart (σ : Nat → FieldData) (f : Nat) : Nat :=
  align_down_32 (σ f).byte_offset

/-- The sweep loop of coalesce_fields, lines 83 to 109 of the buffer-sync
implementation: current is the open region (its length still 0), current_end
its aligned running end.  Each next field either extends the open region or
closes it and opens a new one; at the end the open region is closed with
length current_end - start_offset (uint32_t subtraction). -/
def coalesceLoop (σ : Nat → FieldData) :
    List Nat → MemoryRegion → Nat → List MemoryRegion
  | [], current, current_end =>
      [{ current with length := u32sub current_end current.start_offset }]
  | f :: rest, current, current_end =>
      let f_start := fieldStart σ f
      let f_end := fieldEnd σ f
      if f_start ≤ current_end then
        coalesceLoop σ rest { current with fields := current.fields ++ [f] }
          (if f_end > current_end then f_end else current_end)
      else
        { current with length := u32sub current_end current.start_offset } ::
          coalesceLoop σ rest ⟨f_start, 0, [f]⟩ f_end

/-- Coalesce fields into contiguous memory regions (buffer_sync
coalesce_fields).  Regions are swept in the given list order; the source
performs no sort. -/
def coalesce_fields (σ : Nat → FieldData) (fields : List Nat) : List MemoryRegion :=
  match fields with
  | [] => []
  | f0 :: rest =>
      coalesceLoop σ rest ⟨fieldStart σ f0, 0, [f0]⟩ (fieldEnd σ f0)

/-- build_write_queue: collect dirty fields from the leaf list, coalesce. -/
def build_write_queue (σ : Nat → FieldData) (leaf_list : List Nat) : List MemoryRegion :=
  coalesce_fields σ (collect_dirty_fields σ leaf_list)

/-- build_read_queue: collect subscribed fields from the leaf list, coalesce. -/
def build_read_queue (σ : Nat → FieldData) (leaf_list : List Nat) : List MemoryRegion :=
  coalesce_fields σ (collect_subscribed_fields σ leaf_list)

/-- Update one heap cell. -/
def heapSet (σ : Nat → FieldData) (i : Nat) (v : FieldData) : Nat → FieldData :=
  fun j => if j = i then v else σ j

/-- clear_dirty_flags: set dirty to false for every field of the region. -/
def clear_dirty_flags (σ : Nat → FieldData) (region : MemoryRegion) : Nat → FieldData :=
  region.fields.foldl (fun s i => heapSet s i { s i with dirty := false }) σ

/-- buffer_t (from the dartt library headers, as used by config.h): a
possibly-null byte pointer plus len and size counters.  buf = none models a
null pointer. -/
structure buffer_t where
  buf : Option (List Nat)
  len : Nat
  size : Nat
deriving DecidableEq, Repr

/-- Overwrite bytes of data starting at offset (the effect of memcpy into
data + offset).  Writing past the end of data is dropped by List.set; the
source guards every call with a size check. -/
def writeBytes (data : List Nat) (offset : Nat) (bytes : List Nat) : List Nat :=
  match bytes with
  | [] => data
  | b :: bs => writeBytes (data.set offset b) (offset + 1) bs

/-- Read n bytes of data starting at offset (the effect of memcpy from
data + offset); bytes past the end of data read as 0 (the source guards
every call with a size check). -/
def readBytes (data : List Nat) (offset : Nat) (n : Nat) : List Nat :=
  (List.range n).map (fun k => data.getD (offset + k) 0)

/-- The loop of sync_fields_to_ctl_buf: for each field of the region, fail
if its uint32_t range byte_offset + nbytes exceeds the buffer size, else
copy its first nbytes value bytes to the buffer at byte_offset. -/
def syncToCtlLoop (σ : Nat → FieldData) (size : Nat) :
    List Nat → List Nat → Bool × List Nat
  | [], data => (true, data)
  | f :: rest, data =>
      let fd := σ f
      if u32 (fd.byte_offset + fd.nbytes) > size then (false, data)
      else syncToCtlLoop σ size rest (writeBytes data fd.byte_offset (fd.value.take fd.nbytes))

/-- sync_fields_to_ctl_buf: copy each field value of the region into the
controller buffer.  Returns (ok, new controller buffer, field heap); the
source never writes any field through the region pointers, so the heap
output is the input heap. -/
def sync_fields_to_ctl_buf (σ : Nat → FieldData) (ctl_buf : buffer_t)
    (region : MemoryRegion) : Bool × buffer_t × (Nat → FieldData) :=
  match ctl_buf.buf with
  | none => (false, ctl_buf, σ)
  | some data =>
      let r := syncToCtlLoop σ ctl_buf.size region.fields data
      (r.1, { ctl_buf with buf := some r.2 }, σ)

/-- The loop of sync_periph_buf_to_fields: for each field of the region,
fail if its uint32_t range exceeds the buffer size, else overwrite the first
nbytes bytes of its value with the buffer bytes at byte_offset. -/
def syncFromPeriphLoop (size : Nat) (data : List Nat) :
    List Nat → (Nat → FieldData) → Bool × (Nat → FieldData)
  | [], σ => (true, σ)
  | f :: rest, σ =>
      let fd := σ f
      if u32 (fd.byte_offset + fd.nbytes) > size then (false, σ)
      else
        syncFromPeriphLoop size data rest
          (heapSet σ f
            { fd with value := readBytes data fd.byte_offset fd.nbytes ++ fd.value.drop fd.nbytes })

/-- sync_periph_buf_to_fields: copy bytes of the peripheral buffer into each
field value of the region.  Returns (ok, field heap). -/
def sync_periph_buf_to_fields (σ : Nat → FieldData) (periph_buf : buffer_t)
    (region : MemoryRegion) : Bool × (Nat → FieldData) :=
  match periph_buf.buf with
  | none => (false, σ)
  | some data => syncFromPeriphLoop periph_buf.size data region.fields σ

/-- calloc(1, n): a zero-filled block of n bytes, or none when allocation
fails (the ok oracle argument decides). -/
def calloc (ok : Bool) (n : Nat) : Option (List Nat) :=
  if ok then some (List.replicate n 0) else none

/-- DarttConfig::allocate_buffers (config.h lines 128 to 145): refuse when
nbytes is 0 without touching either buffer; otherwise calloc both buffers,
set len and size of each to nbytes, and return whether both pointers are
non-null.  ctl_ok and periph_ok are the success oracles of the two calloc
calls. -/
def allocate_buffers (nbytes : Nat) (ctl_ok periph_ok : Bool)
    (ctl_buf periph_buf : buffer_t) : Bool × buffer_t × buffer_t :=
  if nbytes = 0 then (false, ctl_buf, periph_buf)
  else
    let ctl' : buffer_t := ⟨calloc ctl_ok nbytes, nbytes, nbytes⟩
    let periph' : buffer_t := ⟨calloc periph_ok nbytes, nbytes, nbytes⟩
    ((calloc ctl_ok nbytes).isSome && (calloc periph_ok nbytes).isSome, ctl', periph')

/-- The DarttField hierarchy node (config.h struct DarttField): scalar data
plus the children vector.  Lean structures cannot be recursive, so the
scalar members live in FieldData and the tree is this inductive. -/
inductive DarttField where
  | mk (data : FieldData) (children : List DarttField)

/-- Scalar data of a tree node. -/
def DarttField.data : DarttField → FieldData
  | .mk d _ => d

/-- Children of a tree node. -/
def DarttField.children : DarttField → List DarttField
  | .mk _ c => c

/-- parse_field_type from the config loader: map a type string to the
FieldType classification, with pointer-suffix and struct/union/enum-prefix
fallbacks. -/
def parse_field_type (type_str : String) : FieldType :=
  if type_str = "float" then .FLOAT
  else if type_str = "double" then .DOUBLE
  else if type_str = "int8_t" ∨ type_str = "signed char" then .INT8
  else if type_str = "uint8_t" ∨ type_str = "unsigned char" then .UINT8
  else if type_str = "int16_t" ∨ type_str = "short" ∨ type_str = "short int" then .INT16
  else if type_str = "uint16_t" ∨ type_str = "unsigned short" ∨
          type_str = "unsigned short int" then .UINT16
  else if type_str = "int32_t" ∨ type_str = "int" ∨ type_str = "long" ∨
          type_str = "long int" then .INT32
  else if type_str = "uint32_t" ∨ type_str = "unsigned int" ∨
          type_str = "unsigned long" ∨ type_str = "unsigned long int" ∨
          type_str = "long unsigned int" then .UINT32
  else if type_str = "int64_t" ∨ type_str = "long long" ∨
          type_str = "long long int" then .INT64
  else if type_str = "uint64_t" ∨ type_str = "unsigned long long" ∨
          type_str = "unsigned long long int" then .UINT64
  else if type_str = "struct" then .STRUCT
  else if type_str = "union" then .UNION
  else if type_str = "array" then .ARRAY
  else if type_str = "pointer" then .POINTER
  else if type_str = "enum" then .ENUM
  else if type_str ≠ "" ∧ type_str.back = '*' then .POINTER
  else if type_str.startsWith "struct " then .STRUCT
  else if type_str.startsWith "union " then .UNION
  else if type_str.startsWith "enum " then .ENUM
  else .UNKNOWN

/-- The expansion step of expand_array_elements for one array node: the i-th
child is a fresh leaf named "[i]" at byte offset parent + i * element size,
of element size, classified by parse_field_type of the type_name of the
parent; every other member keeps its default-constructed value. -/
def mkArrayElems (d : FieldData) : List DarttField :=
  (List.range d.array_size).map (fun i =>
    DarttField.mk
      { FieldData.default with
          name := "[" ++ toString i ++ "]",
          byte_offset := d.byte_offset + i * d.element_nbytes,
          dartt_offset := (d.byte_offset + i * d.element_nbytes) / 4,
          nbytes := d.element_nbytes,
          type := parse_field_type d.type_name,
          type_name := d.type_name }
      [])

mutual

/-- expand_array_elements: depth-first over the tree, any node with
array_size > 0, no children and element_nbytes > 0 receives array_size
fresh leaf children; the freshly created leaves have array_size 0 and no
children, so the continued traversal over them changes nothing (the source
pushes them on its DFS stack and then skips them for the same reason). -/
def expand_array_elements : DarttField → DarttField
  | .mk d cs =>
      if d.array_size > 0 ∧ cs.isEmpty ∧ d.element_nbytes > 0 then
        .mk d (mkArrayElems d)
      else
        .mk d (expandChildren cs)

/-- Expansion mapped over a child list. -/
def expandChildren : List DarttField → List DarttField
  | [] => []
  | c :: cs => expand_array_elements c :: expandChildren cs

end

mutual

/-- collect_leaves: depth-first left-to-right list of the nodes with no
children (the source uses an explicit stack producing the same order). -/
def collect_leaves : DarttField → List DarttField
  | .mk d cs =>
      if cs.isEmpty then [.mk d cs]
      else collectLeavesChildren cs

/-- Leaf collection concatenated over a child list. -/
def collectLeavesChildren : List DarttField → List DarttField
  | [] => []
  | c :: cs => collect_leaves c ++ collectLeavesChildren cs

end

/-- Scalar data of one FieldInfo (elf_parser internal struct FieldInfo)
without the owned type_info pointer: member name, byte offset relative to
the parent, bit-field data (bit_size is -1 when not a bit-field). -/
structure FieldInfoData where
  name : String
  byte_offset : Nat
  bit_size : Int
  bit_offset : Int
deriving DecidableEq, Repr

/-- Scalar data of one TypeInfo (elf_parser internal struct TypeInfo)
without the fields vector and the pointee pointer. -/
structure TypeInfoData where
  type : String
  name : String
  typedef_name : String
  size : Nat
  encoding : String
  dimensions : List Nat
  total_elements : Nat
  is_const : Bool
  is_volatile : Bool
  enumerators : List (String × Int)
deriving DecidableEq, Repr

/-- Default-constructed TypeInfo scalar data (empty strings, size 0,
total_elements 0, qualifiers false). -/
def TypeInfoData.default : TypeInfoData :=
  ⟨"", "", "", 0, "", [], 0, false, false, []⟩

/-- The TypeInfo tree: scalar data, the fields vector (each member pairs its
FieldInfo scalar data with its owned type_info pointer, null modelled as
none) and the pointee pointer. -/
inductive TypeInfo where
  | mk (data : TypeInfoData)
       (fields : List (FieldInfoData × Option TypeInfo))
       (pointee : Option TypeInfo)

/-- Scalar data of a TypeInfo node. -/
def TypeInfo.data : TypeInfo → TypeInfoData
  | .mk d _ _ => d

mutual

/-- get_simple_type_name: human-readable type string (typedef alias first,
then pointer, array, struct/union, enum shapes, else the raw type tag). -/
def get_simple_type_name : TypeInfo → String
  | .mk d fields pointee =>
      if d.typedef_name ≠ "" then d.typedef_name
      else if d.type = "pointer" then gstnPointee pointee
      else if d.type = "array" then
        gstnElem fields ++
        String.join (d.dimensions.map (fun dim => "[" ++ toString dim ++ "]"))
      else if d.type = "struct" ∨ d.type = "union" then
        if d.name ≠ "" then d.type ++ " " ++ d.name else d.type
      else if d.type = "enum" then
        if d.name ≠ "" then "enum " ++ d.name else "enum"
      else d.type

/-- Pointee part of get_simple_type_name: pointee name plus star, or
void star for a null pointee. -/
def gstnPointee : Option TypeInfo → String
  | some p => get_simple_type_name p ++ "*"
  | none => "void*"

/-- Array-element part of get_simple_type_name: the name of the element
type held by the first fields entry, empty when absent. -/
def gstnElem : List (FieldInfoData × Option TypeInfo) → String
  | (_, some t) :: _ => get_simple_type_name t
  | _ => ""

end

/-- The relative offset contributed by a work item's FieldInfo (0 when the
item carries none). -/
def fiOffset : Option FieldInfoData → Nat
  | some f => f.byte_offset
  | none => 0

/-- The name a work item assigns to its output slot: the FieldInfo name, or
the slot's preexisting name when the item carries no FieldInfo. -/
def fiName : Option FieldInfoData → String → String
  | some f, _ => f.name
  | none, slot_name => slot_name

mutual

/-- type_info_to_dartt_field (elf_parser, lines 842 to 896): convert a
TypeInfo tree to a DarttField tree, accumulating absolute byte offsets.
fi is the FieldInfo of the work item (none for the root and for array
element templates); slot_name is the preexisting name of the output slot,
kept when fi is none (the symbol name for the root, empty for fresh
children). -/
def type_info_to_dartt_field : TypeInfo → Option FieldInfoData → String → Nat → DarttField
  | .mk d fields pointee, fi, slot_name, base =>
      let abs := base + fiOffset fi
      let nm := fiName fi slot_name
      let base_data : FieldData :=
        { FieldData.default with
            name := nm, byte_offset := abs, dartt_offset := abs / 4,
            nbytes := d.size,
            type_name := get_simple_type_name (.mk d fields pointee),
            type := parse_field_type d.type }
      if d.type = "struct" ∨ d.type = "union" then
        .mk base_data (convertFields fields abs)
      else if d.type = "array" then
        match fields with
        | (_, some t) :: _ =>
            if t.data.type = "struct" ∨ t.data.type = "union" then
              .mk { base_data with array_size := d.total_elements,
                                   element_nbytes := t.data.size }
                [type_info_to_dartt_field t none "" abs]
            else
              .mk { base_data with array_size := d.total_elements,
                                   element_nbytes := t.data.size,
                                   type := parse_field_type t.data.type,
                                   type_name := get_simple_type_name t } []
        | _ => .mk { base_data with array_size := d.total_elements } []
      else .mk base_data []

/-- Conversion of the member slots of a struct or union: members with a
type_info pointer are converted with the parent's absolute offset as base,
members without one keep their default-constructed child slot (the source
pushes no work item for them). -/
def convertFields : List (FieldInfoData × Option TypeInfo) → Nat → List DarttField
  | [], _ => []
  | (f, some t) :: rest, abs =>
      type_info_to_dartt_field t (some f) "" abs :: convertFields rest abs
  | (_, none) :: rest, abs =>
      .mk FieldData.default [] :: convertFields rest abs

end

/-- The total symbol size chosen by elf_parser_load_config (line 948): the
symbol-table size when positive, else the resolved root type size. -/
def elf_config_nbytes (sym_size : Nat) (ti : TypeInfo) : Nat :=
  if sym_size > 0 then sym_size else ti.data.size

/-- The DarttField tree built by elf_parser_load_config from a resolved
TypeInfo: conversion rooted at the symbol name and offset 0, then array
expansion (lines 952 to 956). -/
def elf_build_tree (symbol : String) (ti : TypeInfo) : DarttField :=
  expand_array_elements (type_info_to_dartt_field ti none symbol 0)

mutual

/-- Every node of a DarttField tree, root first, depth first. -/
def DarttField.allNodes : DarttField → List DarttField
  | .mk d cs => .mk d cs :: allNodesChildren cs

/-- All nodes of a list of trees. -/
def allNodesChildren : List DarttField → List DarttField
  | [] => []
  | c :: cs => c.allNodes ++ allNodesChildren cs

end

/-- DWARF DIE tags distinguished by resolve_type_iterative; every other
tag takes the default branch and is collapsed into DW_TAG_other. -/
inductive DwTag where
  | DW_TAG_base_type
  | DW_TAG_typedef
  | DW_TAG_pointer_type
  | DW_TAG_array_type
  | DW_TAG_structure_type
  | DW_TAG_union_type
  | DW_TAG_enumeration_type
  | DW_TAG_const_type
  | DW_TAG_volatile_type
  | DW_TAG_other
deriving DecidableEq, Repr

/-- A DW_TAG_subrange_type child of an array DIE: optional DW_AT_count and
DW_AT_upper_bound attributes. -/
structure Subrange where
  count : Option Nat
  upper_bound : Option Nat
deriving DecidableEq, Repr

/-- A debug information entry, abstracting the libdwarf accessors the
resolver calls on a Dwarf_Die: name (none when dwarf_diename fails),
DW_AT_byte_size, DW_AT_encoding, the DW_AT_type reference offset,
the member location, bit-field attributes, the subrange children of an
array, the DIE offsets of the DW_TAG_member children of a struct or union,
and the enumerator children (name, optional DW_AT_const_value). -/
structure Die where
  tag : DwTag
  name : Option String
  byte_size : Option Nat
  encoding : Option Nat
  type_ref : Option Nat
  member_location : Nat
  bit_size : Option Nat
  data_bit_offset : Option Nat
  bit_offset : Option Nat
  subranges : List Subrange
  member_offsets : List Nat
  enumerators : List (String × Option Int)
deriving DecidableEq, Repr

/-- A Die with a tag and no attributes. -/
def Die.ofTag (t : DwTag) : Die :=
  ⟨t, none, none, none, none, 0, none, none, none, [], [], []⟩

/-- get_encoding_name: DW_ATE encoding number to name. -/
def get_encoding_name (encoding : Nat) : String :=
  if encoding = 1 then "address"
  else if encoding = 2 then "boolean"
  else if encoding = 3 then "complex_float"
  else if encoding = 4 then "float"
  else if encoding = 5 then "signed"
  else if encoding = 6 then "signed_char"
  else if encoding = 7 then "unsigned"
  else if encoding = 8 then "unsigned_char"
  else "unknown"

/-- One entry of the fields vector of a resolver TypeInfo object: FieldInfo
scalar data plus the owned type_info pointer, modelled as a slot id into the
resolver heap (none = null unique_ptr). -/
structure FieldSlotR where
  name : String
  byte_offset : Nat
  bit_size : Int
  bit_offset : Int
  type_info : Option Nat
deriving DecidableEq, Repr

/-- Default-constructed FieldInfo: empty name, offset 0, bit_size -1,
bit_offset 0, null type_info. -/
def FieldSlotR.default : FieldSlotR := ⟨"", 0, -1, 0, none⟩

/-- A resolver TypeInfo object: the scalar members, the fields vector and
the pointee pointer (a slot id, none = null). -/
structure TypeInfoSlot where
  type : String
  name : String
  typedef_name : String
  size : Nat
  encoding : String
  dimensions : List Nat
  total_elements : Nat
  is_const : Bool
  is_volatile : Bool
  enumerators : List (String × Int)
  fields : List FieldSlotR
  pointee : Option Nat
deriving DecidableEq, Repr

/-- Default-constructed TypeInfo. -/
def TypeInfoSlot.default : TypeInfoSlot :=
  ⟨"", "", "", 0, "", [], 0, false, false, [], [], none⟩

/-- Work item types for the iterative traversal. -/
inductive WorkType where
  | WORK_RESOLVE_TYPE
  | WORK_PARSE_MEMBER
deriving DecidableEq, Repr

/-- struct DwarfWork: work type, DIE offset, result slot id (where to store
the result), cumulative byte offset for members, index into the parent
fields array. -/
structure DwarfWork where
  wtype : WorkType
  die_offset : Nat
  result : Nat
  base_offset : Nat
  index : Nat
deriving DecidableEq, Repr

/-- The mutable state of resolve_type_iterative: the heap of TypeInfo
objects (slot id to object; fresh slots are default-constructed), the next
fresh slot id, the work stack (head = top) and the TypeCache contents
(association list from DIE offset to cached TypeInfo scalar copy). -/
structure ResolveState where
  heap : Nat → TypeInfoSlot
  next : Nat
  stack : List DwarfWork
  cache : List (Nat × TypeInfoSlot)

/-- Update one resolver heap slot. -/
def slotSet (h : Nat → TypeInfoSlot) (i : Nat) (v : TypeInfoSlot) : Nat → TypeInfoSlot :=
  fun j => if j = i then v else h j

/-- The cache-hit copy of resolve_type_iterative (lines 489 to 502): copy
the cached scalar members into the target slot; fields and pointee are not
copied (the source skips the deep copy). -/
def copyCachedScalars (cached slot : TypeInfoSlot) : TypeInfoSlot :=
  { slot with
      type := cached.type, name := cached.name,
      typedef_name := cached.typedef_name, size := cached.size,
      encoding := cached.encoding, dimensions := cached.dimensions,
      total_elements := cached.total_elements, is_const := cached.is_const,
      is_volatile := cached.is_volatile, enumerators := cached.enumerators }

/-- The dimensions list an array DIE contributes: per subrange child,
DW_AT_count if present, else DW_AT_upper_bound + 1, else 0 (flexible
array). -/
def arrayDims (die : Die) : List Nat :=
  die.subranges.map (fun sr =>
    match sr.count with
    | some c => c
    | none =>
        match sr.upper_bound with
        | some u => u + 1
        | none => 0)

/-- The tag dispatch of a WORK_RESOLVE_TYPE item once the DIE has been
fetched (the switch at lines 522 to 737).  work is the popped item, rest
the remaining stack. -/
def resolveTagStep (die : Die) (work : DwarfWork) (rest : List DwarfWork)
    (s : ResolveState) : ResolveState :=
  let slot := s.heap work.result
  match die.tag with
  | .DW_TAG_base_type =>
      let n := die.name.getD ""
      { s with stack := rest,
               heap := slotSet s.heap work.result
                 { slot with
                     type := if n = "" then "unknown" else n,
                     name := n,
                     size := match die.byte_size with
                             | some sz => sz
                             | none => slot.size,
                     encoding := match die.encoding with
                                 | some e => get_encoding_name e
                                 | none => slot.encoding } }
  | .DW_TAG_typedef =>
      let tn := die.name.getD ""
      match die.type_ref with
      | some u =>
          { s with stack := ⟨.WORK_RESOLVE_TYPE, u, work.result, 0, 0⟩ :: rest,
                   heap := slotSet s.heap work.result { slot with typedef_name := tn } }
      | none =>
          { s with stack := rest,
                   heap := slotSet s.heap work.result { slot with type := tn } }
  | .DW_TAG_pointer_type =>
      let slot' := { slot with type := "pointer", size := die.byte_size.getD 4 }
      match die.type_ref with
      | some p =>
          { s with stack := ⟨.WORK_RESOLVE_TYPE, p, s.next, 0, 0⟩ :: rest,
                   heap := slotSet s.heap work.result { slot' with pointee := some s.next },
                   next := s.next + 1 }
      | none => { s with stack := rest, heap := slotSet s.heap work.result slot' }
  | .DW_TAG_array_type =>
      match die.type_ref with
      | none =>
          { s with stack := rest,
                   heap := slotSet s.heap work.result { slot with type := "array" } }
      | some elem =>
          let dims := slot.dimensions ++ arrayDims die
          let field0 := match slot.fields with
                        | [] => FieldSlotR.default
                        | f0 :: _ => f0
          let elemField := { field0 with
                               name := "__element_type__",
                               byte_offset := 0,
                               type_info := some s.next }
          { s with
              stack := ⟨.WORK_RESOLVE_TYPE, elem, s.next, 0, 0⟩ :: rest,
              heap := slotSet s.heap work.result
                { slot with
                    type := "array",
                    dimensions := dims,
                    total_elements := dims.foldl (fun a b => a * b) 1,
                    fields := [elemField] },
              next := s.next + 1 }
  | .DW_TAG_structure_type | .DW_TAG_union_type =>
      let k := die.member_offsets.length
      let fields0 := slot.fields.take k ++
        List.replicate (k - slot.fields.length) FieldSlotR.default
      let fields' := fields0.enum.map (fun p => { p.2 with type_info := some (s.next + p.1) })
      { s with
          stack := die.member_offsets.enum.map
            (fun p => (⟨.WORK_PARSE_MEMBER, p.2, work.result, 0, p.1⟩ : DwarfWork)) ++ rest,
          heap := slotSet s.heap work.result
            { slot with
                type := if die.tag = .DW_TAG_structure_type then "struct" else "union",
                name := die.name.getD "",
                size := die.byte_size.getD 0,
                fields := fields' },
          next := s.next + k }
  | .DW_TAG_enumeration_type =>
      { s with stack := rest,
               heap := slotSet s.heap work.result
                 { slot with
                     type := "enum",
                     name := die.name.getD "",
                     size := die.byte_size.getD 4,
                     enumerators := slot.enumerators ++
                       die.enumerators.map (fun p => (p.1, p.2.getD 0)) } }
  | .DW_TAG_const_type =>
      match die.type_ref with
      | some u =>
          { s with stack := ⟨.WORK_RESOLVE_TYPE, u, work.result, 0, 0⟩ :: rest,
                   heap := slotSet s.heap work.result { slot with is_const := true } }
      | none =>
          { s with stack := rest,
                   heap := slotSet s.heap work.result
                     { slot with type := "void", is_const := true } }
  | .DW_TAG_volatile_type =>
      match die.type_ref with
      | some u =>
          { s with stack := ⟨.WORK_RESOLVE_TYPE, u, work.result, 0, 0⟩ :: rest,
                   heap := slotSet s.heap work.result { slot with is_volatile := true } }
      | none =>
          { s with stack := rest,
                   heap := slotSet s.heap work.result
                     { slot with type := "void", is_volatile := true } }
  | .DW_TAG_other =>
      { s with stack := rest,
               heap := slotSet s.heap work.result
                 { slot with type := "unknown", size := die.byte_size.getD 0 } }

/-- The WORK_PARSE_MEMBER handler (lines 741 to 780): read the member name,
location and bit-field attributes into the parent fields entry at the item
index, and push a resolve item for the member type into the pre-allocated
child slot.  A die fetch failure skips the item.  The source indexes
parent->fields[work.index] unconditionally (the struct case guarantees the
bound); an out-of-bounds index leaves the fields vector unchanged here. -/
def parseMemberStep (dbg : Nat → Option Die) (work : DwarfWork)
    (rest : List DwarfWork) (s : ResolveState) : ResolveState :=
  match dbg work.die_offset with
  | none => { s with stack := rest }
  | some die =>
      let parent := s.heap work.result
      let f := parent.fields.getD work.index FieldSlotR.default
      let bits : Int × Int :=
        match die.bit_size with
        | some bs =>
            (Int.ofNat bs,
             match die.data_bit_offset with
             | some dbo => Int.ofNat dbo
             | none =>
                 match die.bit_offset with
                 | some bo => Int.ofNat bo
                 | none => f.bit_offset)
        | none => (-1, 0)
      let f' := { f with
                    name := die.name.getD f.name,
                    byte_offset := die.member_location,
                    bit_size := bits.1,
                    bit_offset := bits.2 }
      let s' := { s with
                    heap := slotSet s.heap work.result
                      { parent with fields := parent.fields.set work.index f' } }
      match die.type_ref, f.type_info with
      | some tr, some child => { s' with stack := ⟨.WORK_RESOLVE_TYPE, tr, child, 0, 0⟩ :: rest }
      | _, _ => { s' with stack := rest }

/-- One iteration of the resolve_type_iterative while loop: pop a work
item; for a resolve item consult the cache first, then fetch the DIE (a
fetch or tag-read failure marks the target slot "unknown" and continues),
then dispatch on the tag; for a member item run the member handler.  An
empty stack is left unchanged. -/
def resolveStep (dbg : Nat → Option Die) (s : ResolveState) : ResolveState :=
  match s.stack with
  | [] => s
  | work :: rest =>
      match work.wtype with
      | .WORK_RESOLVE_TYPE =>
          match List.lookup work.die_offset s.cache with
          | some cached =>
              { s with stack := rest,
                       heap := slotSet s.heap work.result
                         (copyCachedScalars cached (s.heap work.result)) }
          | none =>
              match dbg work.die_offset with
              | none =>
                  { s with stack := rest,
                           heap := slotSet s.heap work.result
                             { s.heap work.result with type := "unknown" } }
              | some die => resolveTagStep die work rest s
      | .WORK_PARSE_MEMBER => parseMemberStep dbg work rest s

/-- Run the while loop for at most fuel iterations (the source loop runs
until the stack is empty; fuel makes the embedding total). -/
def resolveRun (dbg : Nat → Option Die) : Nat → ResolveState → ResolveState
  | 0, s => s
  | fuel + 1, s =>
      match s.stack with
      | [] => s
      | _ :: _ => resolveRun dbg fuel (resolveStep dbg s)

/-- The initial state of resolve_type_iterative: a fresh default root
TypeInfo in slot 0, one work item for the start offset targeting it, and
the caller-supplied empty TypeCache. -/
def initResolveState (start_offset : Nat) : ResolveState :=
  ⟨fun _ => TypeInfoSlot.default, 1,
   [⟨.WORK_RESOLVE_TYPE, start_offset, 0, 0, 0⟩], []⟩

/-- resolve_type_iterative, run with the given fuel; the root result is
slot 0 of the final heap. -/
def resolve_type_iterative (dbg : Nat → Option Die) (start_offset fuel : Nat) :
    ResolveState :=
  resolveRun dbg fuel (initResolveState start_offset)

/-! Concrete inputs used by the theorems below. -/

/-- Heap of three dirty leaves A (offset 0, 4 bytes), B (offset 4, 4 bytes)
and C (offset 12, 2 bytes), at pointer indices 0, 1, 2. -/
def heapABC : Nat → FieldData := fun i =>
  if i = 0 then { FieldData.default with name := "A", byte_offset := 0, nbytes := 4, dirty := true }
  else if i = 1 then { FieldData.default with name := "B", byte_offset := 4, nbytes := 4, dirty := true }
  else if i = 2 then { FieldData.default with name := "C", byte_offset := 12, nbytes := 2, dirty := true }
  else FieldData.default

/-- Heap of two leaves: index 0 at offset 0, 1 byte, with value byte 7;
index 1 at offset 10, 4 bytes (out of bounds for a 4-byte buffer). -/
def heapOob : Nat → FieldData := fun i =>
  if i = 0 then
    { FieldData.default with
        byte_offset := 0, nbytes := 1, value := [7, 0, 0, 0, 0, 0, 0, 0] }
  else if i = 1 then { FieldData.default with byte_offset := 10, nbytes := 4 }
  else FieldData.default

/-- A 4-byte allocated, zeroed controller buffer. -/
def bufOob : buffer_t := ⟨some [0, 0, 0, 0], 4, 4⟩

/-- A region listing both heapOob fields. -/
def regionOob : MemoryRegion := ⟨0, 16, [0, 1]⟩

/-- The per-field bounds test of the marshaller loops: the uint32_t range
byte_offset + nbytes does not exceed the buffer size. -/
def fieldInBounds (σ : Nat → FieldData) (size : Nat) (f : Nat) : Bool :=
  decide (u32 ((σ f).byte_offset + (σ f).nbytes) ≤ size)

/-! Claim theorems. -/

/-- C1: for dirty leaves A (offset 0, 4 bytes), B (offset 4, 4 bytes) and
C (offset 12, 2 bytes), build_write_queue returns exactly two regions:
start 0, length 8, fields [A, B], and start 12, length 4, fields [C]. -/
theorem C1_coalesce_example :
    build_write_queue heapABC [0, 1, 2] = [⟨0, 8, [0, 1]⟩, ⟨12, 4, [2]⟩] := by
  decide

/-- C10: allocate_buffers returns false and touches neither buffer when
nbytes is 0; whenever it returns true, both mirror buffers have len and
size exactly nbytes and hold nbytes zero bytes. -/
theorem C10_allocate_buffers (nbytes : Nat) (ctl_ok periph_ok : Bool)
    (ctl_buf periph_buf : buffer_t) :
    (nbytes = 0 →
      allocate_buffers nbytes ctl_ok periph_ok ctl_buf periph_buf =
        (false, ctl_buf, periph_buf)) ∧
    ((allocate_buffers nbytes ctl_ok periph_ok ctl_buf periph_buf).1 = true →
      (allocate_buffers nbytes ctl_ok periph_ok ctl_buf periph_buf).2.1 =
          ⟨some (List.replicate nbytes 0), nbytes, nbytes⟩ ∧
      (allocate_buffers nbytes ctl_ok periph_ok ctl_buf periph_buf).2.2 =
          ⟨some (List.replicate nbytes 0), nbytes, nbytes⟩) := by
  constructor
  · intro h
    simp [allocate_buffers, h]
  · intro h
    by_cases h0 : nbytes = 0
    · simp [allocate_buffers, h0] at h
    · simp only [allocate_buffers, h0, if_false, calloc] at h ⊢
      rcases hc : ctl_ok with _ | _ <;> rcases hp : periph_ok with _ | _ <;>
        simp_all [calloc]

/-- C10 witness: the theorem applied at nbytes 0 (false branch) and at
nbytes 5 with both allocations succeeding (true branch). -/
theorem C10_allocate_buffers_witness :
    allocate_buffers 0 true true ⟨none, 0, 0⟩ ⟨none, 0, 0⟩ =
      (false, ⟨none, 0, 0⟩, ⟨none, 0, 0⟩) ∧
    ((allocate_buffers 5 true true ⟨none, 0, 0⟩ ⟨none, 0, 0⟩).2.1 =
        ⟨some (List.replicate 5 0), 5, 5⟩ ∧
     (allocate_buffers 5 true true ⟨none, 0, 0⟩ ⟨none, 0, 0⟩).2.2 =
        ⟨some (List.replicate 5 0), 5, 5⟩) :=
  ⟨(C10_allocate_buffers 0 true true ⟨none, 0, 0⟩ ⟨none, 0, 0⟩).1 rfl,
   (C10_allocate_buffers 5 true true ⟨none, 0, 0⟩ ⟨none, 0, 0⟩).2 (by decide)⟩

/-- The from_wire loop never changes the dirty or subscribed flag of any
field (it only rewrites value bytes). -/
theorem syncFromPeriphLoop_flags (size : Nat) (data : List Nat)
    (fields : List Nat) (σ : Nat → FieldData) (i : Nat) :
    (((syncFromPeriphLoop size data fields σ).2) i).dirty = (σ i).dirty ∧
    (((syncFromPeriphLoop size data fields σ).2) i).subscribed = (σ i).subscribed := by
  induction fields generalizing σ with
  | nil => simp [syncFromPeriphLoop]
  | cons f rest ih =>
      simp only [syncFromPeriphLoop]
      by_cases h : u32 ((σ f).byte_offset + (σ f).nbytes) > size
      · simp [h]
      · simp only [h, if_false]
        have := ih (heapSet σ f
          { σ f with value := readBytes data (σ f).byte_offset (σ f).nbytes ++
              (σ f).value.drop (σ f).nbytes })
        rw [this.1, this.2]
        unfold heapSet
        by_cases hif : i = f <;> simp [hif]

/-- C9: the marshalling operations leave every field's dirty and subscribed
flags unchanged whether they succeed or fail: sync_fields_to_ctl_buf
returns the field heap it was given, and the heap returned by
sync_periph_buf_to_fields agrees with the input on both flags at every
index. -/
theorem C9_marshaller_preserves_flags (σ : Nat → FieldData)
    (ctl_buf periph_buf : buffer_t) (region : MemoryRegion) (i : Nat) :
    (sync_fields_to_ctl_buf σ ctl_buf region).2.2 = σ ∧
    ((sync_periph_buf_to_fields σ periph_buf region).2 i).dirty = (σ i).dirty ∧
    ((sync_periph_buf_to_fields σ periph_buf region).2 i).subscribed = (σ i).subscribed := by
  refine ⟨?_, ?_, ?_⟩
  · rcases h : ctl_buf.buf with _ | data <;> simp [sync_fields_to_ctl_buf, h]
  · rcases h : periph_buf.buf with _ | data <;>
      simp [sync_periph_buf_to_fields, h, syncFromPeriphLoop_flags]
  · rcases h : periph_buf.buf with _ | data <;>
      simp [sync_periph_buf_to_fields, h, syncFromPeriphLoop_flags]

/-- C5: any tree node with declared element count 3, element size 2, no
children and base byte offset 16 expands into exactly three leaf children
at absolute byte offsets 16, 18 and 20, named by index, each of size 2 and
each classified by parse_field_type of the element type string. -/
theorem C5_expand_array (d : FieldData) (h1 : d.array_size = 3)
    (h2 : d.element_nbytes = 2) (h3 : d.byte_offset = 16) :
    expand_array_elements (.mk d []) =
      .mk d
        [.mk { FieldData.default with
                 name := "[0]", byte_offset := 16, dartt_offset := 4, nbytes := 2,
                 type := parse_field_type d.type_name, type_name := d.type_name } [],
         .mk { FieldData.default with
                 name := "[1]", byte_offset := 18, dartt_offset := 4, nbytes := 2,
                 type := parse_field_type d.type_name, type_name := d.type_name } [],
         .mk { FieldData.default with
                 name := "[2]", byte_offset := 20, dartt_offset := 5, nbytes := 2,
                 type := parse_field_type d.type_name, type_name := d.type_name } []] := by
  rw [expand_array_elements]
  rw [if_pos (by simp [h1, h2])]
  unfold mkArrayElems
  rw [h1, h2, h3]
  rfl

/-- C5 witness: the theorem applied to a concrete uint16_t[3] node at
offset 16. -/
theorem C5_expand_array_witness :
    expand_array_elements
        (.mk { FieldData.default with
                 byte_offset := 16, nbytes := 6, type := FieldType.ARRAY,
                 type_name := "uint16_t", array_size := 3, element_nbytes := 2 } []) =
      .mk { FieldData.default with
              byte_offset := 16, nbytes := 6, type := FieldType.ARRAY,
              type_name := "uint16_t", array_size := 3, element_nbytes := 2 }
        [.mk { FieldData.default with
                 name := "[0]", byte_offset := 16, dartt_offset := 4, nbytes := 2,
                 type := parse_field_type "uint16_t", type_name := "uint16_t" } [],
         .mk { FieldData.default with
                 name := "[1]", byte_offset := 18, dartt_offset := 4, nbytes := 2,
                 type := parse_field_type "uint16_t", type_name := "uint16_t" } [],
         .mk { FieldData.default with
                 name := "[2]", byte_offset := 20, dartt_offset := 5, nbytes := 2,
                 type := parse_field_type "uint16_t", type_name := "uint16_t" } []] :=
  C5_expand_array
    { FieldData.default with
        byte_offset := 16, nbytes := 6, type := FieldType.ARRAY,
        type_name := "uint16_t", array_size := 3, element_nbytes := 2 }
    rfl rfl rfl

/-- C3 counterexample: with a 4-byte allocated controller buffer and a
region whose first field (offset 0, 1 byte, value byte 7) is in bounds but
whose second field (offset 10, 4 bytes) is out of bounds,
sync_fields_to_ctl_buf returns false yet the controller buffer is changed:
the first field's byte has already been copied. -/
theorem C3_counterexample :
    (sync_fields_to_ctl_buf heapOob bufOob regionOob).1 = false ∧
    (sync_fields_to_ctl_buf heapOob bufOob regionOob).2.1 ≠ bufOob := by
  decide

/-- The to_wire loop on a field list containing an out-of-bounds field
returns false, after applying exactly the copies of the longest in-bounds
prefix of the list. -/
theorem syncToCtlLoop_oob (σ : Nat → FieldData) (size : Nat)
    (fields : List Nat) (data : List Nat)
    (hbad : ∃ f ∈ fields, ¬ (u32 ((σ f).byte_offset + (σ f).nbytes) ≤ size)) :
    syncToCtlLoop σ size fields data =
      (false,
       (fields.takeWhile (fieldInBounds σ size)).foldl
         (fun d f => writeBytes d (σ f).byte_offset ((σ f).value.take (σ f).nbytes)) data) := by
  induction fields generalizing data with
  | nil => simp at hbad
  | cons f rest ih =>
      by_cases h : u32 ((σ f).byte_offset + (σ f).nbytes) > size
      · simp [syncToCtlLoop, h, List.takeWhile_cons, fieldInBounds,
          Nat.not_le_of_lt h]
      · have hle : u32 ((σ f).byte_offset + (σ f).nbytes) ≤ size := Nat.le_of_not_lt h
        have hbad' : ∃ g ∈ rest, ¬ (u32 ((σ g).byte_offset + (σ g).nbytes) ≤ size) := by
          rcases hbad with ⟨g, hg, hgb⟩
          rcases List.mem_cons.mp hg with hgf | hgr
          · exact absurd (hgf ▸ hle) hgb
          · exact ⟨g, hgr, hgb⟩
        simp [syncToCtlLoop, h, List.takeWhile_cons, fieldInBounds, hle,
          ih _ hbad']

/-- C3 amended: when the controller buffer is allocated and some field of
the region is out of bounds, sync_fields_to_ctl_buf returns false and does
not copy the offending field or any later field, but every field of the
region before the first out-of-bounds one has already been copied into the
buffer (the operation is not atomic). -/
theorem C3_amended_partial_apply (σ : Nat → FieldData) (ctl_buf : buffer_t)
    (region : MemoryRegion) (data : List Nat)
    (hbuf : ctl_buf.buf = some data)
    (hbad : ∃ f ∈ region.fields, ¬ (u32 ((σ f).byte_offset + (σ f).nbytes) ≤ ctl_buf.size)) :
    (sync_fields_to_ctl_buf σ ctl_buf region).1 = false ∧
    (sync_fields_to_ctl_buf σ ctl_buf region).2.1 =
      { ctl_buf with
          buf := some
            ((region.fields.takeWhile (fieldInBounds σ ctl_buf.size)).foldl
              (fun d f => writeBytes d (σ f).byte_offset ((σ f).value.take (σ f).nbytes))
              data) } := by
  have h := syncToCtlLoop_oob σ ctl_buf.size region.fields data hbad
  constructor <;> simp [sync_fields_to_ctl_buf, hbuf, h]

/-- C3 amended witness: the amended theorem applied to the concrete
out-of-bounds scenario; the in-bounds prefix is the first field only, so
the final buffer holds its copied byte. -/
theorem C3_amended_partial_apply_witness :
    (sync_fields_to_ctl_buf heapOob bufOob regionOob).1 = false ∧
    (sync_fields_to_ctl_buf heapOob bufOob regionOob).2.1 =
      { bufOob with
          buf := some
            ((regionOob.fields.takeWhile (fieldInBounds heapOob bufOob.size)).foldl
              (fun d f => writeBytes d (heapOob f).byte_offset
                ((heapOob f).value.take (heapOob f).nbytes))
              [0, 0, 0, 0]) } :=
  C3_amended_partial_apply heapOob bufOob regionOob [0, 0, 0, 0] rfl
    ⟨1, by decide, by decide⟩

/-- C2 counterexample: coalesce_fields performs no sort.  On the dirty
leaves A (offset 0, 4 bytes) and C (offset 12, 2 bytes) presented in the
order [C, A], it returns the single region start 12, length 4 holding both
fields (A lies outside the region's byte range), which differs from the
result on the sorted order [A, C]; a coalescer that first sorted by
absolute byte offset would return the same regions for both orders. -/
theorem C2_counterexample :
    coalesce_fields heapABC [2, 0] = [⟨12, 4, [2, 0]⟩] ∧
    coalesce_fields heapABC [0, 2] = [⟨0, 4, [0]⟩, ⟨12, 4, [2]⟩] ∧
    coalesce_fields heapABC [2, 0] ≠ coalesce_fields heapABC [0, 2] := by
  decide

/-- A field's aligned end is below 2^32 when its byte range plus the
alignment slack does not wrap on uint32_t. -/
theorem fieldEnd_lt (σ : Nat → FieldData) (f : Nat)
    (_h : (σ f).byte_offset + (σ f).nbytes + 3 < 4294967296) :
    fieldEnd σ f < 4294967296 := by
  unfold fieldEnd align_up_32 u32
  omega

/-- A field's aligned start does not exceed its aligned end when its byte
range plus the alignment slack does not wrap on uint32_t. -/
theorem fieldStart_le_fieldEnd (σ : Nat → FieldData) (f : Nat)
    (h : (σ f).byte_offset + (σ f).nbytes + 3 < 4294967296) :
    fieldStart σ f ≤ fieldEnd σ f := by
  unfold fieldStart fieldEnd align_down_32 align_up_32 u32
  omega

/-- uint32_t subtraction is plain subtraction when no underflow occurs. -/
theorem u32sub_eq {a b : Nat} (hba : b ≤ a) (ha : a < 4294967296) :
    u32sub a b = a - b := by
  unfold u32sub u32
  omega

/-- The sweep loop invariant: whatever the input order, the produced region
list is sorted with pairwise disjoint byte ranges, and every produced
region starts at or after the open region's start. -/
theorem coalesceLoop_sorted (σ : Nat → FieldData) (l : List Nat) :
    ∀ (cur : MemoryRegion) (ce : Nat),
      cur.start_offset ≤ ce → ce < 4294967296 →
      (∀ f ∈ l, (σ f).byte_offset + (σ f).nbytes + 3 < 4294967296) →
      (coalesceLoop σ l cur ce).Pairwise
          (fun r1 r2 => r1.start_offset + r1.length ≤ r2.start_offset) ∧
      ∀ r ∈ coalesceLoop σ l cur ce, cur.start_offset ≤ r.start_offset := by
  induction l with
  | nil =>
      intro cur ce hce _ _
      simp [coalesceLoop]
  | cons f rest ih =>
      intro cur ce hce hceM hb
      have hbf : (σ f).byte_offset + (σ f).nbytes + 3 < 4294967296 :=
        hb f (List.mem_cons_self f rest)
      have hbrest : ∀ g ∈ rest, (σ g).byte_offset + (σ g).nbytes + 3 < 4294967296 :=
        fun g hg => hb g (List.mem_cons_of_mem f hg)
      by_cases hle : fieldStart σ f ≤ ce
      · have hceM' : (if fieldEnd σ f > ce then fieldEnd σ f else ce) < 4294967296 := by
          by_cases hgt : fieldEnd σ f > ce
          · simpa [hgt] using fieldEnd_lt σ f hbf
          · simpa [hgt] using hceM
        have hce' : cur.start_offset ≤ (if fieldEnd σ f > ce then fieldEnd σ f else ce) := by
          by_cases hgt : fieldEnd σ f > ce
          · simp only [hgt, if_true]
            exact le_trans hce (le_of_lt hgt)
          · simpa [hgt] using hce
        have h := ih { cur with fields := cur.fields ++ [f] }
          (if fieldEnd σ f > ce then fieldEnd σ f else ce) hce' hceM' hbrest
        simpa [coalesceLoop, hle] using h
      · have hlt : ce < fieldStart σ f := Nat.lt_of_not_le hle
        have h := ih ⟨fieldStart σ f, 0, [f]⟩ (fieldEnd σ f)
          (fieldStart_le_fieldEnd σ f hbf) (fieldEnd_lt σ f hbf) hbrest
        have hfin : cur.start_offset + u32sub ce cur.start_offset = ce := by
          rw [u32sub_eq hce hceM]
          omega
        simp only [coalesceLoop, hle, if_false]
        constructor
        · refine List.pairwise_cons.mpr ⟨?_, h.1⟩
          intro r hr
          have h2 : fieldStart σ f ≤ r.start_offset := h.2 r hr
          show cur.start_offset + u32sub ce cur.start_offset ≤ r.start_offset
          omega
        · intro r hr
          rcases List.mem_cons.mp hr with hr0 | hrr
          · subst hr0
            exact le_refl _
          · have h2 : fieldStart σ f ≤ r.start_offset := h.2 r hrr
            omega

/-- C2 amended: coalesce_fields performs no sort (it sweeps the given
order; see the counterexample), but for every input list of filtered leaf
fields, in any order, the returned MemoryRegion list is sorted by start and
pairwise non-overlapping, provided no field's byte range wraps uint32_t
arithmetic. -/
theorem C2_amended_regions_sorted (σ : Nat → FieldData) (fields : List Nat)
    (hb : ∀ f ∈ fields, (σ f).byte_offset + (σ f).nbytes + 3 < 4294967296) :
    (coalesce_fields σ fields).Pairwise
      (fun r1 r2 => r1.start_offset + r1.length ≤ r2.start_offset) := by
  match fields with
  | [] => simp [coalesce_fields]
  | f0 :: rest =>
      have hbf : (σ f0).byte_offset + (σ f0).nbytes + 3 < 4294967296 :=
        hb f0 (List.mem_cons_self f0 rest)
      have hbrest : ∀ g ∈ rest, (σ g).byte_offset + (σ g).nbytes + 3 < 4294967296 :=
        fun g hg => hb g (List.mem_cons_of_mem f0 hg)
      have h := coalesceLoop_sorted σ rest ⟨fieldStart σ f0, 0, [f0]⟩ (fieldEnd σ f0)
        (fieldStart_le_fieldEnd σ f0 hbf) (fieldEnd_lt σ f0 hbf) hbrest
      simpa [coalesce_fields] using h.1

/-- C2 amended witness: the amended theorem applied to the concrete
unsorted input [C, A]; the single region it yields is trivially sorted. -/
theorem C2_amended_regions_sorted_witness :
    (coalesce_fields heapABC [2, 0]).Pairwise
      (fun r1 r2 => r1.start_offset + r1.length ≤ r2.start_offset) :=
  C2_amended_regions_sorted heapABC [2, 0] (by decide)

/-- Clearing dirty flags for a whole region list (the acknowledge_write of
every region of a queue, one clear_dirty_flags call per region). -/
def clearAllRegions (σ : Nat → FieldData) (regions : List MemoryRegion) :
    Nat → FieldData :=
  regions.foldl (fun s r => clear_dirty_flags s r) σ

/-- The sweep loop distributes every input field into exactly one region:
concatenating the field lists of the produced regions recovers the open
region's fields followed by the remaining input. -/
theorem coalesceLoop_fields_join (σ : Nat → FieldData) (l : List Nat) :
    ∀ (cur : MemoryRegion) (ce : Nat),
      (coalesceLoop σ l cur ce).flatMap (fun r => r.fields) = cur.fields ++ l := by
  induction l with
  | nil => intro cur ce; simp [coalesceLoop]
  | cons f rest ih =>
      intro cur ce
      by_cases hle : fieldStart σ f ≤ ce
      · simp [coalesceLoop, hle, ih]
      · simp [coalesceLoop, hle, ih]

/-- Concatenating the field lists of the coalesced regions recovers the
input field list. -/
theorem coalesce_fields_join (σ : Nat → FieldData) (fields : List Nat) :
    (coalesce_fields σ fields).flatMap (fun r => r.fields) = fields := by
  match fields with
  | [] => simp [coalesce_fields]
  | f0 :: rest => simp [coalesce_fields, coalesceLoop_fields_join]

/-- clear_dirty_flags pointwise: the field at a cleared pointer loses its
dirty flag, every other field is untouched. -/
theorem clear_dirty_flags_get (region : MemoryRegion) :
    ∀ (σ : Nat → FieldData) (i : Nat),
      clear_dirty_flags σ region i =
        if i ∈ region.fields then { σ i with dirty := false } else σ i := by
  show ∀ (σ : Nat → FieldData) (i : Nat),
    region.fields.foldl (fun s j => heapSet s j { s j with dirty := false }) σ i =
      if i ∈ region.fields then { σ i with dirty := false } else σ i
  induction region.fields with
  | nil => intro σ i; simp
  | cons f rest ih =>
      intro σ i
      rw [List.foldl_cons, ih]
      unfold heapSet
      by_cases hif : i ∈ rest
      · simp only [hif, if_true, List.mem_cons, or_true]
        by_cases hf : i = f <;> simp [hf]
      · by_cases hf : i = f
        · subst hf
          simp [hif]
        · simp [hif, hf, Ne.symm hf]

/-- clearAllRegions pointwise: a pointer listed in some region of the list
loses its dirty flag, every other pointer is untouched. -/
theorem clearAllRegions_get (regions : List MemoryRegion) :
    ∀ (σ : Nat → FieldData) (i : Nat),
      clearAllRegions σ regions i =
        if i ∈ regions.flatMap (fun r => r.fields) then { σ i with dirty := false }
        else σ i := by
  induction regions with
  | nil => intro σ i; simp [clearAllRegions]
  | cons r rest ih =>
      intro σ i
      show clearAllRegions (clear_dirty_flags σ r) rest i = _
      rw [ih, clear_dirty_flags_get]
      by_cases hir : i ∈ rest.flatMap (fun r => r.fields)
      · simp only [hir, if_true, List.flatMap_cons, List.mem_append, or_true]
        by_cases hf : i ∈ r.fields <;> simp [hf]
      · by_cases hf : i ∈ r.fields <;> simp [hir, hf]

/-- C8: after clear_dirty_flags has been applied to every region returned
by build_write_queue, a further build_write_queue over the same leaves with
no further edits returns the empty region list. -/
theorem C8_write_queue_idempotent (σ : Nat → FieldData) (leaf_list : List Nat) :
    build_write_queue (clearAllRegions σ (build_write_queue σ leaf_list)) leaf_list = [] := by
  have hjoin : (build_write_queue σ leaf_list).flatMap (fun r => r.fields) =
      collect_dirty_fields σ leaf_list := by
    unfold build_write_queue
    exact coalesce_fields_join σ (collect_dirty_fields σ leaf_list)
  have hclean : collect_dirty_fields
      (clearAllRegions σ (build_write_queue σ leaf_list)) leaf_list = [] := by
    unfold collect_dirty_fields
    rw [List.filter_eq_nil_iff]
    intro i hi
    rw [clearAllRegions_get, hjoin]
    by_cases hd : i ∈ collect_dirty_fields σ leaf_list
    · simp [hd]
    · simp only [hd, if_false]
      intro hcontra
      exact hd (List.mem_filter.mpr ⟨hi, hcontra⟩)
  unfold build_write_queue at hclean ⊢
  rw [hclean, coalesce_fields]

mutual

/-- Well-formedness of debug metadata, the hypothesis of the amended offset
invariant (not a source function): every struct or union member fits inside
its parent's declared size, and an array's declared elements (and its
element template) fit inside the array's declared size. -/
def TypeInfo.wfb : TypeInfo → Bool
  | .mk d fields _ =>
      if d.type = "struct" ∨ d.type = "union" then wfbFields fields d.size
      else if d.type = "array" then
        match fields with
        | (_, some t) :: _ =>
            decide (d.total_elements * t.data.size ≤ d.size) &&
            decide (t.data.size ≤ d.size) && TypeInfo.wfb t
        | _ => true
      else true

/-- Member well-formedness against the parent size. -/
def wfbFields : List (FieldInfoData × Option TypeInfo) → Nat → Bool
  | [], _ => true
  | (f, some t) :: rest, size =>
      decide (f.byte_offset + t.data.size ≤ size) && TypeInfo.wfb t &&
        wfbFields rest size
  | (_, none) :: rest, size => wfbFields rest size

end

/-- Membership in the node list of a tree: the root, or a node of some
child. -/
theorem mem_allNodesChildren (n : DarttField) (cs : List DarttField) :
    n ∈ allNodesChildren cs ↔ ∃ c ∈ cs, n ∈ c.allNodes := by
  induction cs with
  | nil => simp [allNodesChildren]
  | cons c cs ih => simp [allNodesChildren, ih]

/-- Membership in allNodes of a constructed node. -/
theorem mem_allNodes_mk (n : DarttField) (d : FieldData) (cs : List DarttField) :
    n ∈ (DarttField.mk d cs).allNodes ↔ n = .mk d cs ∨ ∃ c ∈ cs, n ∈ c.allNodes := by
  rw [DarttField.allNodes]
  simp [mem_allNodesChildren]

/-- Every converted member child is either the conversion of a member with
a type_info, or the default-constructed node. -/
theorem mem_convertFields (c : DarttField) (fields : List (FieldInfoData × Option TypeInfo))
    (abs : Nat) (hc : c ∈ convertFields fields abs) :
    (∃ f t, (f, some t) ∈ fields ∧ c = type_info_to_dartt_field t (some f) "" abs) ∨
    c = .mk FieldData.default [] := by
  induction fields with
  | nil => simp [convertFields] at hc
  | cons p rest ih =>
      rcases p with ⟨f, _ | t⟩
      · rw [convertFields] at hc
        rcases List.mem_cons.mp hc with h0 | hr
        · exact Or.inr h0
        · rcases ih hr with ⟨g, u, hmem, he⟩ | he
          · exact Or.inl ⟨g, u, List.mem_cons_of_mem _ hmem, he⟩
          · exact Or.inr he
      · rw [convertFields] at hc
        rcases List.mem_cons.mp hc with h0 | hr
        · exact Or.inl ⟨f, t, List.mem_cons_self _ _, h0⟩
        · rcases ih hr with ⟨g, u, hmem, he⟩ | he
          · exact Or.inl ⟨g, u, List.mem_cons_of_mem _ hmem, he⟩
          · exact Or.inr he

/-- Member well-formedness gives the bound and recursive well-formedness
of every member that carries a type_info. -/
theorem wfbFields_mem (fields : List (FieldInfoData × Option TypeInfo)) (size : Nat)
    (hwf : wfbFields fields size = true) (f : FieldInfoData) (t : TypeInfo)
    (hmem : (f, some t) ∈ fields) :
    f.byte_offset + t.data.size ≤ size ∧ TypeInfo.wfb t = true := by
  induction fields with
  | nil => simp at hmem
  | cons p rest ih =>
      rcases p with ⟨g, _ | u⟩
      · rw [wfbFields] at hwf
        rcases List.mem_cons.mp hmem with h0 | hr
        · simp at h0
        · exact ih hwf hr
      · rw [wfbFields] at hwf
        simp only [Bool.and_eq_true, decide_eq_true_eq] at hwf
        rcases List.mem_cons.mp hmem with h0 | hr
        · rcases Prod.mk.injEq .. ▸ h0 with ⟨hg, hu⟩
          cases hg
          cases Option.some.injEq .. ▸ hu
          exact ⟨hwf.1.1, hwf.1.2⟩
        · exact ih hwf.2 hr

/-- Every node of the tree converted from well-formed metadata whose root
extent fits under B has its byte range under B, and its declared array
extent under B as well (the second bound is what array expansion consumes).
The induction is on a size bound N over the metadata tree. -/
theorem convert_bounded (B : Nat) :
    ∀ (N : Nat) (ti : TypeInfo), sizeOf ti < N →
      ∀ (fi : Option FieldInfoData) (nm : String) (base : Nat),
        TypeInfo.wfb ti = true →
        base + fiOffset fi + ti.data.size ≤ B →
        ∀ n ∈ (type_info_to_dartt_field ti fi nm base).allNodes,
          n.data.byte_offset + n.data.nbytes ≤ B ∧
          n.data.byte_offset + n.data.array_size * n.data.element_nbytes ≤ B := by
  intro N
  induction N with
  | zero => intro ti h; omega
  | succ N ih =>
      rintro ⟨d, fields, pointee⟩ hsz fi nm base hwf hbound n hn
      rw [type_info_to_dartt_field.eq_def] at hn
      simp only [TypeInfo.data] at hbound
      simp only at hn
      generalize habs : base + fiOffset fi = abs at hbound hn
      by_cases hsu : d.type = "struct" ∨ d.type = "union"
      · rw [if_pos hsu] at hn
        rw [mem_allNodes_mk] at hn
        rcases hn with hroot | ⟨c, hc, hnc⟩
        · subst hroot
          constructor
          · show abs + d.size ≤ B
            omega
          · show abs + 0 * 0 ≤ B
            omega
        · rw [TypeInfo.wfb.eq_def] at hwf
          simp only at hwf
          rw [if_pos hsu] at hwf
          rcases mem_convertFields c fields abs hc with ⟨f, t, hmem, hce⟩ | hce
          · subst hce
            have hszt : sizeOf t < N := by
              have h1 := List.sizeOf_lt_of_mem hmem
              simp only [TypeInfo.mk.sizeOf_spec, Prod.mk.sizeOf_spec,
                Option.some.sizeOf_spec] at hsz h1 ⊢
              omega
            have hw := wfbFields_mem fields d.size hwf f t hmem
            exact ih t hszt (some f) "" abs hw.2 (by simp only [fiOffset]; have := hw.1; omega) n hnc
          · subst hce
            rw [mem_allNodes_mk] at hnc
            rcases hnc with hroot | ⟨c', hc', _⟩
            · subst hroot
              constructor
              · show 0 + 0 ≤ B
                omega
              · show 0 + 0 * 0 ≤ B
                omega
            · simp at hc'
      · rw [if_neg hsu] at hn
        by_cases har : d.type = "array"
        · rw [if_pos har] at hn
          rcases hfs : fields with _ | ⟨⟨f0, oti⟩, rest⟩
          · subst hfs
            simp only [mem_allNodes_mk] at hn
            rcases hn with hroot | ⟨c, hc, _⟩
            · subst hroot
              constructor
              · show abs + d.size ≤ B
                omega
              · show abs + d.total_elements * 0 ≤ B
                omega
            · simp at hc
          · subst hfs
            rw [TypeInfo.wfb.eq_def] at hwf
            simp only at hwf
            rw [if_neg hsu, if_pos har] at hwf
            rcases oti with _ | t
            · simp only [mem_allNodes_mk] at hn
              rcases hn with hroot | ⟨c, hc, _⟩
              · subst hroot
                constructor
                · show abs + d.size ≤ B
                  omega
                · show abs + d.total_elements * 0 ≤ B
                  omega
              · simp at hc
            · simp only [Bool.and_eq_true, decide_eq_true_eq] at hwf
              have hszt : sizeOf t < N := by
                simp only [TypeInfo.mk.sizeOf_spec, List.cons.sizeOf_spec,
                  Prod.mk.sizeOf_spec, Option.some.sizeOf_spec] at hsz ⊢
                omega
              have harr1 : d.total_elements * t.data.size ≤ d.size := hwf.1.1
              have harr2 : t.data.size ≤ d.size := hwf.1.2
              simp only at hn
              by_cases hts : t.data.type = "struct" ∨ t.data.type = "union"
              · rw [if_pos hts] at hn
                simp only [mem_allNodes_mk] at hn
                rcases hn with hroot | ⟨c, hc, hnc⟩
                · subst hroot
                  constructor
                  · show abs + d.size ≤ B
                    omega
                  · show abs + d.total_elements * t.data.size ≤ B
                    omega
                · simp only [List.mem_singleton] at hc
                  subst hc
                  exact ih t hszt none "" abs hwf.2 (by simp only [fiOffset]; omega) n hnc
              · rw [if_neg hts] at hn
                simp only [mem_allNodes_mk] at hn
                rcases hn with hroot | ⟨c, hc, _⟩
                · subst hroot
                  constructor
                  · show abs + d.size ≤ B
                    omega
                  · show abs + d.total_elements * t.data.size ≤ B
                    omega
                · simp at hc
        · rw [if_neg har] at hn
          simp only [mem_allNodes_mk] at hn
          rcases hn with hroot | ⟨c, hc, _⟩
          · subst hroot
            constructor
            · show abs + d.size ≤ B
              omega
            · show abs + 0 * 0 ≤ B
              omega
          · simp at hc


/-- Membership in the expansion of a child list. -/
theorem mem_expandChildren (c' : DarttField) (cs : List DarttField) :
    c' ∈ expandChildren cs ↔ ∃ c ∈ cs, c' = expand_array_elements c := by
  induction cs with
  | nil => simp [expandChildren]
  | cons c cs ih => simp [expandChildren, ih]

/-- Array expansion preserves the byte-range bound: if every node of a tree
has its byte range and its declared array extent under B, every node of the
expanded tree has its byte range under B. -/
theorem expand_bounded (B : Nat) :
    ∀ (N : Nat) (t : DarttField), sizeOf t < N →
      (∀ n ∈ t.allNodes,
        n.data.byte_offset + n.data.nbytes ≤ B ∧
        n.data.byte_offset + n.data.array_size * n.data.element_nbytes ≤ B) →
      ∀ n ∈ (expand_array_elements t).allNodes,
        n.data.byte_offset + n.data.nbytes ≤ B := by
  intro N
  induction N with
  | zero => intro t h; omega
  | succ N ih =>
      rintro ⟨d, cs⟩ hsz hall n hn
      have hroot1 : d.byte_offset + d.nbytes ≤ B :=
        (hall (.mk d cs) (by rw [mem_allNodes_mk]; exact Or.inl rfl)).1
      have hroot2 : d.byte_offset + d.array_size * d.element_nbytes ≤ B :=
        (hall (.mk d cs) (by rw [mem_allNodes_mk]; exact Or.inl rfl)).2
      rw [expand_array_elements] at hn
      by_cases hcond : d.array_size > 0 ∧ cs.isEmpty ∧ d.element_nbytes > 0
      · rw [if_pos hcond] at hn
        rw [mem_allNodes_mk] at hn
        rcases hn with hr | ⟨c, hc, hnc⟩
        · subst hr
          exact hroot1
        · unfold mkArrayElems at hc
          rw [List.mem_map] at hc
          obtain ⟨i, hi, hci⟩ := hc
          rw [List.mem_range] at hi
          subst hci
          rw [mem_allNodes_mk] at hnc
          rcases hnc with hr | ⟨c', hc', _⟩
          · subst hr
            show d.byte_offset + i * d.element_nbytes + d.element_nbytes ≤ B
            have hmul : (i + 1) * d.element_nbytes ≤ d.array_size * d.element_nbytes :=
              Nat.mul_le_mul_right _ (by omega)
            rw [Nat.succ_mul] at hmul
            omega
          · simp at hc'
      · rw [if_neg hcond] at hn
        rw [mem_allNodes_mk] at hn
        rcases hn with hr | ⟨c', hc', hnc⟩
        · subst hr
          exact hroot1
        · rw [mem_expandChildren] at hc'
          obtain ⟨c, hc, rfl⟩ := hc'
          have hszc : sizeOf c < N := by
            have h1 := List.sizeOf_lt_of_mem hc
            simp only [DarttField.mk.sizeOf_spec] at hsz
            omega
          refine ih c hszc ?_ n hnc
          intro m hm
          exact hall m (by rw [mem_allNodes_mk]; exact Or.inr ⟨c, hc, hm⟩)

/-- Malformed metadata: a struct of declared size 4 whose single int member
sits at relative byte offset 100. -/
def tiBad : TypeInfo :=
  .mk { TypeInfoData.default with type := "struct", name := "S", size := 4 }
    [(⟨"m", 100, -1, 0⟩,
      some (.mk { TypeInfoData.default with type := "int", name := "int", size := 4 } [] none))]
    none

/-- Well-formed metadata: a struct of size 8 with two int members at
relative offsets 0 and 4. -/
def tiGood : TypeInfo :=
  .mk { TypeInfoData.default with type := "struct", name := "P", size := 8 }
    [(⟨"x", 0, -1, 0⟩,
      some (.mk { TypeInfoData.default with type := "int", name := "int", size := 4 } [] none)),
     (⟨"y", 4, -1, 0⟩,
      some (.mk { TypeInfoData.default with type := "int", name := "int", size := 4 } [] none))]
    none

/-- C6 counterexample: nothing in the builder bounds member offsets by the
symbol size.  For the metadata tiBad (struct of size 4, member at offset
100), the tree built by type_info_to_dartt_field and expand_array_elements
with the size chosen by elf_parser_load_config (symbol-table size 0, so
nbytes = 4) contains a node with byte_offset + nbytes = 104 > 4. -/
theorem C6_counterexample :
    ¬ (∀ n ∈ (elf_build_tree "sym" tiBad).allNodes,
        n.data.byte_offset + n.data.nbytes ≤ elf_config_nbytes 0 tiBad) := by
  decide

/-- C6 amended: the offset invariant holds for every tree built from
well-formed debug metadata (every member fits its parent's declared size,
every array's elements fit its declared size), provided the symbol-table
size, when nonzero, is at least the root type's size: every node of the
built tree satisfies byte_offset + nbytes less than or equal to the config
nbytes chosen by elf_parser_load_config. -/
theorem C6_amended_offset_invariant (ti : TypeInfo) (symbol : String) (sym_size : Nat)
    (hwf : TypeInfo.wfb ti = true)
    (hsym : sym_size = 0 ∨ ti.data.size ≤ sym_size) :
    ∀ n ∈ (elf_build_tree symbol ti).allNodes,
      n.data.byte_offset + n.data.nbytes ≤ elf_config_nbytes sym_size ti := by
  have hB : ti.data.size ≤ elf_config_nbytes sym_size ti := by
    unfold elf_config_nbytes
    rcases hsym with h | h
    · simp [h]
    · by_cases h0 : sym_size > 0
      · simp only [h0, if_true]
        exact h
      · simp [h0]
  intro n hn
  have hconv := convert_bounded (elf_config_nbytes sym_size ti) (sizeOf ti + 1) ti
    (by omega) none symbol 0 hwf (by simpa [fiOffset] using hB)
  exact expand_bounded (elf_config_nbytes sym_size ti)
    (sizeOf (type_info_to_dartt_field ti none symbol 0) + 1)
    (type_info_to_dartt_field ti none symbol 0) (by omega) hconv n hn

/-- C6 amended witness: the amended invariant applied to the well-formed
concrete metadata tiGood with symbol-table size 0, checked over the whole
node list of the built tree. -/
theorem C6_amended_offset_invariant_witness :
    ((elf_build_tree "sym" tiGood).allNodes.all
      (fun n => decide (n.data.byte_offset + n.data.nbytes ≤ elf_config_nbytes 0 tiGood))) =
      true := by
  rw [List.all_eq_true]
  intro n hn
  exact decide_eq_true
    (C6_amended_offset_invariant tiGood "sym" 0 (by decide) (Or.inl rfl) n hn)

/-- The tag dispatch never writes the TypeCache. -/
theorem resolveTagStep_cache (die : Die) (work : DwarfWork) (rest : List DwarfWork)
    (s : ResolveState) : (resolveTagStep die work rest s).cache = s.cache := by
  unfold resolveTagStep
  repeat' split
  all_goals rfl

/-- The member handler never writes the TypeCache. -/
theorem parseMemberStep_cache (dbg : Nat → Option Die) (work : DwarfWork)
    (rest : List DwarfWork) (s : ResolveState) :
    (parseMemberStep dbg work rest s).cache = s.cache := by
  unfold parseMemberStep
  split
  · rfl
  · dsimp only
    split <;> rfl

/-- One loop iteration never writes the TypeCache: TypeCache::put is dead
code, no branch of the loop calls it. -/
theorem resolveStep_cache (dbg : Nat → Option Die) (s : ResolveState) :
    (resolveStep dbg s).cache = s.cache := by
  unfold resolveStep
  repeat' split
  all_goals first
    | rfl
    | exact resolveTagStep_cache ..
    | exact parseMemberStep_cache ..

/-- The whole loop never writes the TypeCache. -/
theorem resolveRun_cache (dbg : Nat → Option Die) (fuel : Nat) :
    ∀ (s : ResolveState), (resolveRun dbg fuel s).cache = s.cache := by
  induction fuel with
  | zero => intro s; rfl
  | succ n ih =>
      intro s
      rw [resolveRun]
      rcases hst : s.stack with _ | ⟨w, r⟩
      · rfl
      · rw [ih (resolveStep dbg s), resolveStep_cache]

/-- Debug info with a shared type identity: a struct DIE at offset 1 with
two member DIEs at offsets 2 and 3, both referencing the same int base
type DIE at offset 4. -/
def dbgShared : Nat → Option Die := fun off =>
  if off = 1 then
    some { Die.ofTag .DW_TAG_structure_type with
             name := some "Point", byte_size := some 8, member_offsets := [2, 3] }
  else if off = 2 then
    some { Die.ofTag .DW_TAG_other with name := some "x", type_ref := some 4 }
  else if off = 3 then
    some { Die.ofTag .DW_TAG_other with
             name := some "y", member_location := 4, type_ref := some 4 }
  else if off = 4 then
    some { Die.ofTag .DW_TAG_base_type with
             name := some "int", byte_size := some 4, encoding := some 5 }
  else none

/-- C4: the per-identity TypeCache is never populated.  No iteration of
resolve_type_iterative ever writes the cache (TypeCache::put is never
called), so a later work item for an already-resolved DIE offset is never
satisfied from the cache; on the concrete debug info dbgShared, where the
DIE at offset 4 is referenced by both members, the run completes with the
cache still empty and both member slots resolved by walking the same DIE
again. -/
theorem C4_type_cache_never_populated :
    (∀ (dbg : Nat → Option Die) (fuel : Nat) (s : ResolveState),
        (resolveRun dbg fuel s).cache = s.cache) ∧
    ((resolve_type_iterative dbgShared 1 8).cache = [] ∧
     ((resolve_type_iterative dbgShared 1 8).heap 1).type = "int" ∧
     ((resolve_type_iterative dbgShared 1 8).heap 1).size = 4 ∧
     ((resolve_type_iterative dbgShared 1 8).heap 2).type = "int" ∧
     ((resolve_type_iterative dbgShared 1 8).heap 2).size = 4 ∧
     (resolve_type_iterative dbgShared 1 8).stack = []) :=
  ⟨fun dbg fuel s => resolveRun_cache dbg fuel s, by decide⟩

/-- C7: processing a WORK_RESOLVE_TYPE item whose DIE cannot be fetched
marks only the target slot "unknown" (its size is unchanged, so a freshly
allocated slot keeps size 0), pops the item and continues: the rest of the
work stack, every other heap slot, the cache and the allocation counter are
untouched, so all other pending work items resolve as before and the
resolve as a whole still returns its result. -/
theorem C7_unresolvable_type_degrades (dbg : Nat → Option Die) (s : ResolveState)
    (work : DwarfWork) (rest : List DwarfWork)
    (hstack : s.stack = work :: rest)
    (hw : work.wtype = WorkType.WORK_RESOLVE_TYPE)
    (hcache : List.lookup work.die_offset s.cache = none)
    (hdbg : dbg work.die_offset = none) :
    (resolveStep dbg s).stack = rest ∧
    (resolveStep dbg s).heap work.result =
      { s.heap work.result with type := "unknown" } ∧
    ((resolveStep dbg s).heap work.result).size = (s.heap work.result).size ∧
    (∀ j, j ≠ work.result → (resolveStep dbg s).heap j = s.heap j) ∧
    (resolveStep dbg s).cache = s.cache ∧
    (resolveStep dbg s).next = s.next := by
  unfold resolveStep
  simp only [hstack, hw, hcache, hdbg]
  refine ⟨?_, ?_, ?_, ?_, ?_, ?_⟩
  all_goals try trivial
  all_goals try (intro j hj; simp [slotSet, hj])
  all_goals simp [slotSet]

/-- Debug info with an unresolvable reference: the struct member at DIE
offset 3 references a type at offset 9, which is absent. -/
def dbgBadRef : Nat → Option Die := fun off =>
  if off = 1 then
    some { Die.ofTag .DW_TAG_structure_type with
             name := some "S", byte_size := some 8, member_offsets := [2, 3] }
  else if off = 2 then
    some { Die.ofTag .DW_TAG_other with name := some "good", type_ref := some 4 }
  else if off = 3 then
    some { Die.ofTag .DW_TAG_other with
             name := some "bad", member_location := 4, type_ref := some 9 }
  else if off = 4 then
    some { Die.ofTag .DW_TAG_base_type with
             name := some "int", byte_size := some 4, encoding := some 5 }
  else none

/-- The state of the dbgBadRef run at the moment the unresolvable
reference (DIE offset 9, target slot 2) is on top of the work stack, with
the sibling member's resolve item still pending below it. -/
def stateBadRef : ResolveState :=
  ⟨fun _ => TypeInfoSlot.default, 3,
   [⟨.WORK_RESOLVE_TYPE, 9, 2, 0, 0⟩, ⟨.WORK_RESOLVE_TYPE, 4, 1, 0, 0⟩], []⟩

/-- C7 witness: the theorem applied at the concrete unresolvable
reference; slot 2 degrades to "unknown" with size 0 and the sibling work
item is still pending, everything else untouched. -/
theorem C7_unresolvable_type_degrades_witness :
    (resolveStep dbgBadRef stateBadRef).stack = [⟨.WORK_RESOLVE_TYPE, 4, 1, 0, 0⟩] ∧
    (resolveStep dbgBadRef stateBadRef).heap 2 =
      { stateBadRef.heap 2 with type := "unknown" } ∧
    ((resolveStep dbgBadRef stateBadRef).heap 2).size = 0 ∧
    (resolveStep dbgBadRef stateBadRef).cache = [] ∧
    (resolveStep dbgBadRef stateBadRef).next = 3 := by
  have h := C7_unresolvable_type_degrades dbgBadRef stateBadRef
    ⟨.WORK_RESOLVE_TYPE, 9, 2, 0, 0⟩ [⟨.WORK_RESOLVE_TYPE, 4, 1, 0, 0⟩]
    rfl rfl rfl (by decide)
  exact ⟨h.1, h.2.1, h.2.2.1.trans rfl, h.2.2.2.2.1, h.2.2.2.2.2⟩
